import Mathlib

/-!
Verification of the tail-like utility (tailr): the count-specification
parser, the signed offset resolver, and the line/byte extraction passes,
shallowly embedded from src/tailr/src/main.rs.
-/

/-- The `TakeValue` enum: `PlusZero` is the literal token `+0`
("print everything"); `TakeNum n` is a signed 64-bit count. -/
inductive TakeValue where
  | PlusZero : TakeValue
  | TakeNum : Int → TakeValue
deriving DecidableEq, Repr

/-- Outcome of `parse_num`: `ok` a parsed value, `err` the verbatim
offending token (the `Err(Error::msg(value))` path), or `panicked`
(the `.expect("Invalid number")` path when the i64 parse fails). -/
inductive ParseOutcome where
  | ok : TakeValue → ParseOutcome
  | err : String → ParseOutcome
  | panicked : String → ParseOutcome
deriving DecidableEq, Repr

/-- The Unicode 15 ranges of general category Nd (decimal digit),
which is what `\d` matches in the regex crate with its default Unicode
mode. Each pair is an inclusive codepoint range. -/
def ndRanges : List (Nat × Nat) :=
  [(0x30, 0x39), (0x660, 0x669), (0x6F0, 0x6F9), (0x7C0, 0x7C9),
   (0x966, 0x96F), (0x9E6, 0x9EF), (0xA66, 0xA6F), (0xAE6, 0xAEF),
   (0xB66, 0xB6F), (0xBE6, 0xBEF), (0xC66, 0xC6F), (0xCE6, 0xCEF),
   (0xD66, 0xD6F), (0xDE6, 0xDEF), (0xE50, 0xE59), (0xED0, 0xED9),
   (0xF20, 0xF29), (0x1040, 0x1049), (0x1090, 0x1099), (0x17E0, 0x17E9),
   (0x1810, 0x1819), (0x1946, 0x194F), (0x19D0, 0x19D9), (0x1A80, 0x1A89),
   (0x1A90, 0x1A99), (0x1B50, 0x1B59), (0x1BB0, 0x1BB9), (0x1C40, 0x1C49),
   (0x1C50, 0x1C59), (0xA620, 0xA629), (0xA8D0, 0xA8D9), (0xA900, 0xA909),
   (0xA9D0, 0xA9D9), (0xA9F0, 0xA9F9), (0xAA50, 0xAA59), (0xABF0, 0xABF9),
   (0xFF10, 0xFF19), (0x104A0, 0x104A9), (0x10D30, 0x10D39),
   (0x11066, 0x1106F), (0x110F0, 0x110F9), (0x11136, 0x1113F),
   (0x111D0, 0x111D9), (0x112F0, 0x112F9), (0x11450, 0x11459),
   (0x114D0, 0x114D9), (0x11650, 0x11659), (0x116C0, 0x116C9),
   (0x11730, 0x11739), (0x118E0, 0x118E9), (0x11950, 0x11959),
   (0x11C50, 0x11C59), (0x11D50, 0x11D59), (0x11DA0, 0x11DA9),
   (0x11F50, 0x11F59), (0x16A60, 0x16A69), (0x16AC0, 0x16AC9),
   (0x16B50, 0x16B59), (0x1D7CE, 0x1D7FF), (0x1E140, 0x1E149),
   (0x1E2F0, 0x1E2F9), (0x1E4F0, 0x1E4F9), (0x1E950, 0x1E959),
   (0x1FBF0, 0x1FBF9)]

/-- A character matched by the regex crate's `\d`: Unicode general
category Nd. The ASCII digits 0-9 are its first range. -/
def isNd (c : Char) : Bool :=
  ndRanges.any (fun r => decide (r.1 ≤ c.toNat) && decide (c.toNat ≤ r.2))

/-- Capture of the regex `^([+-]?)\d+$` with the regex crate's Unicode
`\d` (category Nd): `some (sign, digits)` when the token matches, where
`sign` is capture group 1 (possibly empty) and `digits` is the nonempty
run of Nd characters; `none` when it does not match. -/
def numCaptures (s : String) : Option (String × List Char) :=
  match s.data with
  | [] => none
  | c :: rest =>
    if c = '+' ∨ c = '-' then
      if rest ≠ [] ∧ rest.all isNd then some (String.mk [c], rest) else none
    else
      if (c :: rest).all isNd then some ("", c :: rest) else none

/-- Value of a run of ASCII decimal digit characters. -/
def digitsToNat (ds : List Char) : Nat :=
  ds.foldl (fun a c => 10 * a + (c.toNat - 48)) 0

/-- The signed value of a token made of `sign` (capture group 1)
followed by `digits`, as Rust's `str::parse::<i64>` computes it when
the digits are all ASCII. -/
def signedVal (sign : String) (ds : List Char) : Int :=
  if sign = "-" then -(digitsToNat ds : Int) else (digitsToNat ds : Int)

/-- `parse_num` from src/tailr/src/main.rs: match the token against
`^([+-]?)\d+$` (Unicode `\d`), then parse the whole token with
`str::parse::<i64>` — which accepts only ASCII digits and a value in
the i64 range, so a matching token with a non-ASCII Nd digit or an
out-of-range value hits the `.expect` panic — then dispatch on the
captured sign. -/
def parse_num (value : String) : ParseOutcome :=
  match numCaptures value with
  | none => .err value
  | some (sign, ds) =>
    if ds.all Char.isDigit then
      let num : Int := signedVal sign ds
      if num < -(2 ^ 63) ∨ 2 ^ 63 - 1 < num then .panicked "Invalid number"
      else if sign = "+" then
        if num = 0 then .ok .PlusZero else .ok (.TakeNum num)
      else if sign = "-" then .ok (.TakeNum num)
      else .ok (.TakeNum (-num))
    else .panicked "Invalid number"

/-- `get_start_index` from src/tailr/src/main.rs: resolve a count
specification against a total extent to an optional 0-based start index. -/
def get_start_index (take_val : TakeValue) (total : Int) : Option Int :=
  match take_val with
  | .TakeNum num =>
    if num = 0 ∨ total = 0 ∨ num > total then none
    else if num < 0 then some (max (total + num) 0)
    else some (num - 1)
  | .PlusZero => if total ≠ 0 then some 0 else none

/-- `print_lines` from src/tailr/src/main.rs, modelled on the sequence of
lines of the source: resolve the start index; when `some start`, loop
`i` over `0..total_lines`, reading the next line each iteration and
emitting it iff `i >= start` (a read past the end yields the empty
string, as `read_line` does on an exhausted reader). -/
def print_lines (file : List String) (num_lines : TakeValue)
    (total_lines : Int) : List String :=
  match get_start_index num_lines total_lines with
  | none => []
  | some start =>
    (List.range total_lines.toNat).filterMap
      (fun (i : Nat) => if start ≤ (i : Int) then some (file.getD i "") else none)

/-- A byte in `0x80..0xBF`, i.e. a valid UTF-8 continuation byte. -/
def contOk (b : Nat) : Bool := 0x80 ≤ b ∧ b ≤ 0xBF

/-- Valid range of the first continuation byte of a 3-byte sequence,
which depends on the lead byte (overlong and surrogate exclusion). -/
def cont3Ok (lead c : Nat) : Bool :=
  if lead = 0xE0 then 0xA0 ≤ c ∧ c ≤ 0xBF
  else if lead = 0xED then 0x80 ≤ c ∧ c ≤ 0x9F
  else contOk c

/-- Valid range of the first continuation byte of a 4-byte sequence,
which depends on the lead byte (overlong and out-of-range exclusion). -/
def cont4Ok (lead c : Nat) : Bool :=
  if lead = 0xF0 then 0x90 ≤ c ∧ c ≤ 0xBF
  else if lead = 0xF4 then 0x80 ≤ c ∧ c ≤ 0x8F
  else contOk c

/-- `String::from_utf8_lossy` as a map from bytes to Unicode scalar
values: well-formed sequences decode to their scalar value, and each
maximal invalid subsequence is replaced by U+FFFD (0xFFFD); a truncated
or invalid sequence never rejects the input. -/
def utf8Lossy : List Nat → List Nat
  | [] => []
  | b :: t =>
    if b ≤ 0x7F then b :: utf8Lossy t
    else if 0xC2 ≤ b ∧ b ≤ 0xDF then
      match t with
      | [] => [0xFFFD]
      | c :: t2 =>
        if contOk c then ((b - 0xC0) * 0x40 + (c - 0x80)) :: utf8Lossy t2
        else 0xFFFD :: utf8Lossy (c :: t2)
    else if 0xE0 ≤ b ∧ b ≤ 0xEF then
      match t with
      | [] => [0xFFFD]
      | c1 :: t2 =>
        if cont3Ok b c1 then
          match t2 with
          | [] => [0xFFFD]
          | c2 :: t3 =>
            if contOk c2 then
              ((b - 0xE0) * 0x1000 + (c1 - 0x80) * 0x40 + (c2 - 0x80))
                :: utf8Lossy t3
            else 0xFFFD :: utf8Lossy (c2 :: t3)
        else 0xFFFD :: utf8Lossy (c1 :: t2)
    else if 0xF0 ≤ b ∧ b ≤ 0xF4 then
      match t with
      | [] => [0xFFFD]
      | c1 :: t2 =>
        if cont4Ok b c1 then
          match t2 with
          | [] => [0xFFFD]
          | c2 :: t3 =>
            if contOk c2 then
              match t3 with
              | [] => [0xFFFD]
              | c3 :: t4 =>
                if contOk c3 then
                  ((b - 0xF0) * 0x40000 + (c1 - 0x80) * 0x1000
                    + (c2 - 0x80) * 0x40 + (c3 - 0x80)) :: utf8Lossy t4
                else 0xFFFD :: utf8Lossy (c3 :: t4)
            else 0xFFFD :: utf8Lossy (c2 :: t3)
        else 0xFFFD :: utf8Lossy (c1 :: t2)
    else 0xFFFD :: utf8Lossy t
termination_by l => l.length
decreasing_by all_goals simp_all [List.length_cons] <;> omega

/-- `print_bytes` from src/tailr/src/main.rs, modelled on the byte
sequence of the source: resolve the start index; when `some start`, seek
to offset `start`, `read_exact` a buffer of `total_bytes - start` bytes
(an error when fewer bytes are available), then print the buffer decoded
with `String::from_utf8_lossy`. The result is the emitted sequence of
Unicode scalar values, or the propagated read error. -/
def print_bytes (file : List Nat) (num_bytes : TakeValue)
    (total_bytes : Int) : Except String (List Nat) :=
  match get_start_index num_bytes total_bytes with
  | none => .ok []
  | some start =>
    let n := (total_bytes - start).toNat
    let buf := (file.drop start.toNat).take n
    if buf.length = n then .ok (utf8Lossy buf)
    else .error "failed to fill whole buffer"

/-- Contents of one file of the modelled filesystem: its sequence of
lines and its sequence of bytes. `count_lines_bytes` returns the length
of each. -/
structure FileData where
  lines : List String
  bytes : List Nat
deriving DecidableEq, Repr

/-- `count_lines_bytes` from src/tailr/src/main.rs: one pass counting
the lines and one pass summing the bytes read per line, i.e. the line
count and total byte length of the file. -/
def count_lines_bytes (d : FileData) : Int × Int :=
  ((d.lines.length : Int), (d.bytes.length : Int))

/-- The parsed CLI arguments (struct `Args`): input files, the line
count spec (default `TakeNum (-10)` from the literal "10"), the
optional byte count spec, and the quiet flag. -/
structure Args where
  files : List String
  lines : TakeValue
  bytes : Option TakeValue
  quiet : Bool
deriving DecidableEq, Repr

/-- One item written to standard output by `run`: a file header (with a
preceding blank line when it is not the first file), the lines emitted
by `print_lines`, or the decoded scalars emitted by `print_bytes`. -/
inductive OutItem where
  | header : Bool → String → OutItem
  | textOut : List String → OutItem
  | bytesOut : List Nat → OutItem
deriving DecidableEq, Repr

/-- The loop body of `run`, processing the remaining `files` starting at
index `i`. The filesystem is `fs` (`none` means the file cannot be
opened) and `cause` gives the OS error text for an unopenable name.
Mirrors src/tailr/src/main.rs lines 194-209: `count_lines_bytes(...)?`
propagates an open failure immediately (formatted "name: cause" by
`open_file`), ending the run; otherwise the header is printed when there
are several files and quiet is not set, then one of the two extraction
modes runs, `?`-propagating its error. Returns the emitted items and
the error `run` returns, if any. -/
def runFrom (fs : String → Option FileData) (cause : String → String)
    (args : Args) : List String → Nat → List OutItem × Option String
  | [], _ => ([], none)
  | filename :: rest, i =>
    match fs filename with
    | none => ([], some (filename ++ ": " ++ cause filename))
    | some d =>
      let totals := count_lines_bytes d
      let hdr : List OutItem :=
        if args.files.length > 1 ∧ ¬ args.quiet then [.header (i > 0) filename]
        else []
      match args.bytes with
      | some b =>
        match print_bytes d.bytes b totals.2 with
        | .error e => (hdr, some e)
        | .ok out =>
          let next := runFrom fs cause args rest (i + 1)
          (hdr ++ .bytesOut out :: next.1, next.2)
      | none =>
        let out := print_lines d.lines args.lines totals.1
        let next := runFrom fs cause args rest (i + 1)
        (hdr ++ .textOut out :: next.1, next.2)

/-- `run` from src/tailr/src/main.rs: process the files in order;
`main` prints the returned error, if any, to standard error. -/
def run (fs : String → Option FileData) (cause : String → String)
    (args : Args) : List OutItem × Option String :=
  runFrom fs cause args args.files 0

/-- A single-entry filesystem: only the name "good" is openable, with a
one-line, two-byte content. -/
def fsOneGood : String → Option FileData :=
  fun name => if name = "good" then some ⟨["a\n"], [97, 10]⟩ else none

/-- The OS cause text for every unopenable name. -/
def causeNoEnt : String → String :=
  fun _ => "No such file or directory (os error 2)"

/-- Arguments naming an unopenable file before an openable one, in the
default line mode with headers on. -/
def argsBadGood : Args :=
  ⟨["bad", "good"], .TakeNum (-10), none, false⟩

lemma get_start_index_bounds (spec : TakeValue) (total i : Int)
    (ht : 0 ≤ total) (h : get_start_index spec total = some i) :
    0 ≤ i ∧ i < total := by
  cases spec with
  | PlusZero =>
    by_cases h0 : total = 0
    · simp [get_start_index, h0] at h
    · simp [get_start_index, h0] at h
      omega
  | TakeNum num =>
    by_cases h1 : num = 0 ∨ total = 0 ∨ num > total
    · simp [get_start_index, h1] at h
    · by_cases h2 : num < 0
      · simp [get_start_index, h1, h2] at h
        omega
      · simp [get_start_index, h1, h2] at h
        omega

lemma filterMap_range_getD (file : List String) (s : Nat) :
    (List.range file.length).filterMap
      (fun i => if s ≤ i then some (file.getD i "") else none)
      = file.drop s := by
  induction file generalizing s with
  | nil => simp
  | cons a t ih =>
    have hsucc : ((fun i => if s ≤ i then some ((a :: t).getD i "") else none)
        ∘ Nat.succ)
        = (fun i => if s ≤ i + 1 then some (t.getD i "") else none) := by
      funext i
      simp [Function.comp, List.getD_cons_succ]
    rw [List.length_cons, List.range_succ_eq_map, List.filterMap_cons,
      List.filterMap_map, hsucc]
    cases s with
    | zero =>
      have h0 : (fun i => if 0 ≤ i + 1 then some (t.getD i "") else none)
          = (fun i => if 0 ≤ i then some (t.getD i "") else none) := by
        funext i
        simp
      rw [h0, ih 0, List.drop_zero, List.drop_zero]
      simp
    | succ s =>
      have h1 : (fun i => if s + 1 ≤ i + 1 then some (t.getD i "") else none)
          = (fun i => if s ≤ i then some (t.getD i "") else none) := by
        funext i
        simp
      rw [h1, ih s, List.drop_succ_cons]
      simp

lemma utf8Lossy_ne_nil (bs : List Nat) (h : bs ≠ []) : utf8Lossy bs ≠ [] := by
  match bs with
  | [] => exact absurd rfl h
  | b :: t =>
    rw [utf8Lossy.eq_def]
    dsimp only
    repeat' split
    all_goals simp

/-- C3: for every n < 0 and total > 0,
resolve(Signed n, total) = some (max (total + n) 0); when the magnitude
of n is at most total this is some (total + n), and when it exceeds
total it is some 0 — not none, unlike the positive-overflow case. -/
theorem c3_resolve_negative (n total : Int) (hn : n < 0) (ht : 0 < total) :
    get_start_index (.TakeNum n) total = some (max (total + n) 0) ∧
    (|n| ≤ total → get_start_index (.TakeNum n) total = some (total + n)) ∧
    (total < |n| → get_start_index (.TakeNum n) total = some 0) := by
  have h1 : ¬ (n = 0 ∨ total = 0 ∨ n > total) := by omega
  have habs : |n| = -n := abs_of_neg hn
  refine ⟨?_, ?_, ?_⟩
  · simp [get_start_index, h1, hn]
  · intro hle
    rw [habs] at hle
    simp [get_start_index, h1, hn]
    omega
  · intro hgt
    rw [habs] at hgt
    simp [get_start_index, h1, hn]
    omega

/-- Witness for c3_resolve_negative at n = -3 and n-magnitude beyond
total via its hypotheses at concrete inputs. -/
theorem c3_resolve_negative_witness :
    ((-3 : Int) < 0 ∧ (0 : Int) < 10) ∧
    (get_start_index (.TakeNum (-3)) 10 = some (max (10 + -3) 0) ∧
     (|(-3 : Int)| ≤ 10 → get_start_index (.TakeNum (-3)) 10 = some (10 + -3)) ∧
     ((10 : Int) < |(-3 : Int)| → get_start_index (.TakeNum (-3)) 10 = some 0)) :=
  ⟨⟨by decide, by decide⟩, c3_resolve_negative (-3) 10 (by decide) (by decide)⟩

/-- C4: for every 0 < n <= total, resolve(Signed n, total) = some (n-1)
(1-based position to 0-based index, including n = total); and for every
n > total > 0 the result is none. -/
theorem c4_resolve_positive :
    (∀ n total : Int, 0 < n → n ≤ total →
      get_start_index (.TakeNum n) total = some (n - 1)) ∧
    (∀ n total : Int, 0 < total → total < n →
      get_start_index (.TakeNum n) total = none) := by
  constructor
  · intro n total hn hnt
    have h1 : ¬ (n = 0 ∨ total = 0 ∨ n > total) := by omega
    have h2 : ¬ n < 0 := by omega
    simp [get_start_index, h1, h2]
  · intro n total ht hn
    have h1 : n = 0 ∨ total = 0 ∨ n > total := by omega
    simp [get_start_index, h1]

/-- Witness for c4_resolve_positive at (n, total) = (10, 10) and
(11, 10) via its hypotheses at concrete inputs. -/
theorem c4_resolve_positive_witness :
    get_start_index (.TakeNum 10) 10 = some 9 ∧
    get_start_index (.TakeNum 11) 10 = none :=
  ⟨by
    have h := c4_resolve_positive.1 10 10 (by decide) (by decide)
    simpa using h,
   c4_resolve_positive.2 11 10 (by decide) (by decide)⟩

/-- C5: degenerate cases — any spec against total = 0 resolves to none,
Signed 0 resolves to none against any total, and PlusZero against a
positive total resolves to some 0. -/
theorem c5_resolve_degenerate :
    (∀ spec : TakeValue, get_start_index spec 0 = none) ∧
    (∀ total : Int, get_start_index (.TakeNum 0) total = none) ∧
    (∀ total : Int, 0 < total → get_start_index .PlusZero total = some 0) := by
  refine ⟨?_, ?_, ?_⟩
  · intro spec
    cases spec <;> simp [get_start_index]
  · intro total
    simp [get_start_index]
  · intro total ht
    simp [get_start_index]
    omega

/-- Witness for c5_resolve_degenerate, applying the PlusZero clause at
total = 5. -/
theorem c5_resolve_degenerate_witness :
    get_start_index .PlusZero 5 = some 0 :=
  c5_resolve_degenerate.2.2 5 (by decide)

/-- C7: whenever the resolver returns some i against a total >= 0, the
index i satisfies 0 <= i < total. -/
theorem c7_start_index_range (spec : TakeValue) (total i : Int)
    (ht : 0 ≤ total) (h : get_start_index spec total = some i) :
    0 ≤ i ∧ i < total :=
  get_start_index_bounds spec total i ht h

/-- Witness for c7_start_index_range at spec = Signed (-3), total = 10,
i = 7. -/
theorem c7_start_index_range_witness :
    (0 : Int) ≤ 7 ∧ (7 : Int) < 10 :=
  c7_start_index_range (.TakeNum (-3)) 10 7 (by decide) (by decide)

/-- C8: with total the number of lines of the source, whenever the
resolver yields some start, print_lines emits exactly the final segment
of the source from index start on — equal in order and content to the
original suffix — and the number of emitted lines is total - start. -/
theorem c8_print_lines_roundtrip (file : List String) (spec : TakeValue)
    (start : Int)
    (h : get_start_index spec (file.length : Int) = some start) :
    print_lines file spec (file.length : Int) = file.drop start.toNat ∧
    ((print_lines file spec (file.length : Int)).length : Int)
      = (file.length : Int) - start := by
  obtain ⟨h0, hlt⟩ :=
    get_start_index_bounds spec _ start (Int.natCast_nonneg _) h
  have hmain : print_lines file spec (file.length : Int)
      = file.drop start.toNat := by
    simp only [print_lines, h, Int.toNat_natCast]
    have hcond : ∀ i : Nat, (start ≤ (i : Int)) = (start.toNat ≤ i) :=
      fun i => propext Int.toNat_le.symm
    simp only [hcond]
    exact filterMap_range_getD file start.toNat
  refine ⟨hmain, ?_⟩
  rw [hmain, List.length_drop]
  omega

/-- Witness for c8_print_lines_roundtrip on a three-line source with
spec Signed (-2), which resolves to start index 1. -/
theorem c8_print_lines_roundtrip_witness :
    print_lines ["a\n", "b\n", "c\n"] (.TakeNum (-2))
        ((["a\n", "b\n", "c\n"] : List String).length : Int)
      = ["a\n", "b\n", "c\n"].drop (1 : Int).toNat ∧
    ((print_lines ["a\n", "b\n", "c\n"] (.TakeNum (-2))
        ((["a\n", "b\n", "c\n"] : List String).length : Int)).length : Int)
      = ((["a\n", "b\n", "c\n"] : List String).length : Int) - 1 :=
  c8_print_lines_roundtrip ["a\n", "b\n", "c\n"] (.TakeNum (-2)) 1 (by decide)

lemma print_bytes_drop (file : List Nat) (b : TakeValue) (start : Int)
    (hg : get_start_index b (file.length : Int) = some start) :
    print_bytes file b (file.length : Int)
      = .ok (utf8Lossy (file.drop start.toNat)) := by
  obtain ⟨h0, hlt⟩ :=
    get_start_index_bounds b _ start (Int.natCast_nonneg _) hg
  have hn : ((file.length : Int) - start).toNat
      = file.length - start.toNat := by omega
  have hdroplen : (file.drop start.toNat).length
      = file.length - start.toNat := List.length_drop _ _
  have htake : (file.drop start.toNat).take
        (((file.length : Int) - start).toNat) = file.drop start.toNat := by
    rw [hn, ← hdroplen, List.take_length]
  simp only [print_bytes, hg, htake]
  rw [if_pos (by rw [hdroplen, hn])]

lemma print_bytes_total_ok (file : List Nat) (b : TakeValue) :
    ∃ out, print_bytes file b (file.length : Int) = .ok out := by
  cases hg : get_start_index b (file.length : Int) with
  | none => exact ⟨[], by simp [print_bytes, hg]⟩
  | some start => exact ⟨_, print_bytes_drop file b start hg⟩

/-- C9: with total the byte length of the source, whenever the resolver
yields some start, print_bytes emits the permissive (lossy) decoding of
the slice of the source starting at byte offset start, that slice holds
exactly total - start bytes, the decoder never rejects a nonempty
input, and a truncated multi-byte sequence decodes to the replacement
character instead of aborting. -/
theorem c9_print_bytes_extraction (file : List Nat) (spec : TakeValue)
    (start : Int)
    (h : get_start_index spec (file.length : Int) = some start) :
    print_bytes file spec (file.length : Int)
      = .ok (utf8Lossy (file.drop start.toNat)) ∧
    (((file.drop start.toNat).length : Int) = (file.length : Int) - start) ∧
    (∀ bs : List Nat, bs ≠ [] → utf8Lossy bs ≠ []) ∧
    utf8Lossy [0xE3] = [0xFFFD] := by
  obtain ⟨h0, hlt⟩ :=
    get_start_index_bounds spec _ start (Int.natCast_nonneg _) h
  refine ⟨print_bytes_drop file spec start h, ?_, utf8Lossy_ne_nil,
    by norm_num [utf8Lossy]⟩
  rw [List.length_drop]
  omega

/-- Witness for c9_print_bytes_extraction on the four bytes of a valid
three-byte character followed by the first byte of another, with spec
Signed (-2): the resolved start index 2 cuts the first character in
half. -/
theorem c9_print_bytes_extraction_witness :
    print_bytes [0xE3, 0x81, 0x82, 0xE3] (.TakeNum (-2))
        ((([0xE3, 0x81, 0x82, 0xE3] : List Nat).length : Int))
      = .ok (utf8Lossy ([0xE3, 0x81, 0x82, 0xE3].drop (2 : Int).toNat)) ∧
    (((([0xE3, 0x81, 0x82, 0xE3] : List Nat).drop (2 : Int).toNat).length : Int)
      = ((([0xE3, 0x81, 0x82, 0xE3] : List Nat).length : Int)) - 2) ∧
    (∀ bs : List Nat, bs ≠ [] → utf8Lossy bs ≠ []) ∧
    utf8Lossy [0xE3] = [0xFFFD] :=
  c9_print_bytes_extraction [0xE3, 0x81, 0x82, 0xE3] (.TakeNum (-2)) 2
    (by decide)

lemma isNd_le_48 (c : Char) (h : isNd c = true) (hle : c.toNat ≤ 48) :
    c = '0' := by
  obtain ⟨r, hr, hcond⟩ := List.any_eq_true.mp h
  simp only [Bool.and_eq_true, decide_eq_true_eq] at hcond
  have hlo : ∀ r ∈ ndRanges, 48 ≤ r.1 := by decide
  have h48 : c.toNat = 48 := by
    have := hlo r hr
    omega
  have hv : c.val = ('0' : Char).val := by
    apply UInt32.eq_of_toBitVec_eq
    apply BitVec.eq_of_toNat_eq
    simpa [Char.toNat, UInt32.toNat] using h48
  exact Char.eq_of_val_eq hv

lemma foldl_digits_zero (ds : List Char) :
    ∀ acc : Nat,
      ds.foldl (fun a c => 10 * a + (c.toNat - 48)) acc = 0 →
      acc = 0 ∧ ∀ c ∈ ds, c.toNat ≤ 48 := by
  induction ds with
  | nil =>
    intro acc h
    simpa using h
  | cons c t ih =>
    intro acc h
    rw [List.foldl_cons] at h
    obtain ⟨hstep, hall⟩ := ih (10 * acc + (c.toNat - 48)) h
    refine ⟨by omega, ?_⟩
    intro x hx
    rcases List.mem_cons.mp hx with hx | hx
    · subst hx
      omega
    · exact hall x hx

lemma numCaptures_all_nd (s sign : String) (ds : List Char)
    (h : numCaptures s = some (sign, ds)) : ds.all isNd = true := by
  unfold numCaptures at h
  match hs : s.data with
  | [] =>
    rw [hs] at h
    cases h
  | c :: rest =>
    rw [hs] at h
    dsimp only at h
    by_cases hc : c = '+' ∨ c = '-'
    · rw [if_pos hc] at h
      by_cases hr : rest ≠ [] ∧ rest.all isNd
      · rw [if_pos hr] at h
        injection h with h1
        injection h1 with h2 h3
        rw [← h3]
        exact hr.2
      · rw [if_neg hr] at h
        cases h
    · rw [if_neg hc] at h
      by_cases hr : (c :: rest).all isNd
      · rw [if_pos hr] at h
        injection h with h1
        injection h1 with h2 h3
        rw [← h3]
        exact hr
      · rw [if_neg hr] at h
        cases h

lemma all_ascii_of_nd_zero (s sign : String) (ds : List Char)
    (h : numCaptures s = some (sign, ds)) (hz : digitsToNat ds = 0) :
    ds.all Char.isDigit = true := by
  have hnd := numCaptures_all_nd s sign ds h
  unfold digitsToNat at hz
  rw [List.all_eq_true] at hnd ⊢
  obtain ⟨-, hle⟩ := foldl_digits_zero ds 0 hz
  intro c hc
  have h0 : c = '0' := isNd_le_48 c (hnd c hc) (hle c hc)
  rw [h0]
  decide

/-- C6 counterexample: the token "+9223372036854775808" matches
^[+-]?\d+$ yet parse_num neither succeeds nor returns a parse error
carrying the token — it panics on the failed i64 conversion; likewise
the token "٣" (ARABIC-INDIC DIGIT THREE) matches the Unicode \d of
the regex yet panics in the ASCII-only i64 parse instead of being
reported verbatim. -/
theorem c6_parse_num_cex :
    (numCaptures "+9223372036854775808").isSome = true ∧
    parse_num "+9223372036854775808" = .panicked "Invalid number" ∧
    parse_num "+9223372036854775808" ≠ .err "+9223372036854775808" ∧
    (numCaptures "٣").isSome = true ∧
    parse_num "٣" = .panicked "Invalid number" ∧
    parse_num "٣" ≠ .err "٣" := by
  refine ⟨by decide, by decide, by decide, by decide, by decide, by decide⟩

/-- C6 amended: a token not matching ^[+-]?\d+$ (Unicode \d) is a parse
error carrying the token verbatim; every matching token panics whenever
its digits are not all ASCII or its signed value overflows the i64
conversion; and a matching token whose digits are all ASCII and whose
signed value is representable parses with the stated mapping — bare
digits N to Signed (-N), "+" with zero magnitude to PlusZero, "+" with
nonzero magnitude to Signed N, and "-" to Signed (-N). -/
theorem c6_parse_num_mapping :
    (∀ s : String, numCaptures s = none → parse_num s = .err s) ∧
    (∀ (s sign : String) (ds : List Char),
      numCaptures s = some (sign, ds) →
      ((ds.all Char.isDigit = false ∨
          signedVal sign ds < -(2 ^ 63) ∨ 2 ^ 63 - 1 < signedVal sign ds →
        parse_num s = .panicked "Invalid number") ∧
       (ds.all Char.isDigit = true →
        ((sign = "" → (digitsToNat ds : Int) ≤ 2 ^ 63 - 1 →
           parse_num s = .ok (.TakeNum (-(digitsToNat ds : Int)))) ∧
         (sign = "+" → digitsToNat ds = 0 → parse_num s = .ok .PlusZero) ∧
         (sign = "+" → 0 < digitsToNat ds →
            (digitsToNat ds : Int) ≤ 2 ^ 63 - 1 →
           parse_num s = .ok (.TakeNum (digitsToNat ds : Int))) ∧
         (sign = "-" → (digitsToNat ds : Int) ≤ 2 ^ 63 →
           parse_num s = .ok (.TakeNum (-(digitsToNat ds : Int)))))))) := by
  constructor
  · intro s h
    simp [parse_num, h]
  · intro s sign ds h
    constructor
    · intro hbad
      rcases hbad with hbad | hv
      · simp only [parse_num, h]
        rw [if_neg (by simp [hbad])]
      · simp only [parse_num, h]
        by_cases hd : ds.all Char.isDigit = true
        · rw [if_pos hd, if_pos hv]
        · rw [if_neg hd]
    · intro hd
      refine ⟨?_, ?_, ?_, ?_⟩
      · rintro rfl hle
        have hv : signedVal "" ds = (digitsToNat ds : Int) := by
          simp [signedVal]
        have hrange : ¬ (signedVal "" ds < -(2 ^ 63) ∨
            2 ^ 63 - 1 < signedVal "" ds) := by
          rw [hv]
          omega
        simp only [parse_num, h]
        rw [if_pos hd, if_neg hrange,
          if_neg (show ¬ ("" : String) = "+" from by decide),
          if_neg (show ¬ ("" : String) = "-" from by decide), hv]
      · rintro rfl hz
        have hv : signedVal "+" ds = 0 := by
          simp [signedVal, hz]
        have hrange : ¬ (signedVal "+" ds < -(2 ^ 63) ∨
            2 ^ 63 - 1 < signedVal "+" ds) := by
          rw [hv]
          omega
        simp only [parse_num, h]
        rw [if_pos hd, if_neg hrange, if_pos trivial, if_pos hv]
      · rintro rfl hpos hle
        have hv : signedVal "+" ds = (digitsToNat ds : Int) := by
          simp [signedVal]
        have hrange : ¬ (signedVal "+" ds < -(2 ^ 63) ∨
            2 ^ 63 - 1 < signedVal "+" ds) := by
          rw [hv]
          omega
        have hnz : ¬ signedVal "+" ds = 0 := by
          rw [hv]
          omega
        simp only [parse_num, h]
        rw [if_pos hd, if_neg hrange, if_pos trivial, if_neg hnz, hv]
      · rintro rfl hle
        have hv : signedVal "-" ds = -(digitsToNat ds : Int) := by
          simp [signedVal]
        have hrange : ¬ (signedVal "-" ds < -(2 ^ 63) ∨
            2 ^ 63 - 1 < signedVal "-" ds) := by
          rw [hv]
          omega
        simp only [parse_num, h]
        rw [if_pos hd, if_neg hrange,
          if_neg (show ¬ ("-" : String) = "+" from by decide), if_pos trivial,
          hv]

/-- Witness for c6_parse_num_mapping: the token "3.14" is rejected
verbatim, the Unicode-digit token "٤" panics, and the token "3"
parses to Signed (-3). -/
theorem c6_parse_num_mapping_witness :
    parse_num "3.14" = .err "3.14" ∧
    parse_num "٤" = .panicked "Invalid number" ∧
    parse_num "3" = .ok (.TakeNum (-3)) := by
  refine ⟨?_, ?_, ?_⟩
  · exact c6_parse_num_mapping.1 "3.14" (by decide)
  · exact (c6_parse_num_mapping.2 "٤" "" ['٤'] (by decide)).1
      (Or.inl (by decide))
  · have h := ((c6_parse_num_mapping.2 "3" "" ['3']
      (by decide)).2 (by decide)).1 rfl (by decide)
    simpa using h

/-- C2 counterexample: the token "9223372036854775808" (magnitude 2^63,
beyond i64) does not parse to a saturated minimum — parse_num panics on
the failed i64 conversion. -/
theorem c2_parse_num_overflow_cex :
    parse_num "9223372036854775808" = .panicked "Invalid number" ∧
    parse_num "9223372036854775808" ≠ .ok (.TakeNum (-(2 ^ 63))) := by
  refine ⟨by decide, by decide⟩

/-- C2 amended: a token matching ^[+-]?\d+$ whose signed i64 value
(sign applied to the digits) lies outside the representable range
panics ("Invalid number") instead of saturating; the one extreme token
"-9223372036854775808" still parses, to Signed of the minimum value. -/
theorem c2_parse_num_overflow (s sign : String) (ds : List Char)
    (h : numCaptures s = some (sign, ds))
    (hv : signedVal sign ds < -(2 ^ 63) ∨ 2 ^ 63 - 1 < signedVal sign ds) :
    parse_num s = .panicked "Invalid number" ∧
    parse_num "-9223372036854775808" = .ok (.TakeNum (-(2 ^ 63))) := by
  constructor
  · simp only [parse_num, h]
    by_cases hd : ds.all Char.isDigit = true
    · rw [if_pos hd, if_pos hv]
    · rw [if_neg hd]
  · decide

/-- Witness for c2_parse_num_overflow at the 20-nines token. -/
theorem c2_parse_num_overflow_witness :
    parse_num "99999999999999999999" = .panicked "Invalid number" ∧
    parse_num "-9223372036854775808" = .ok (.TakeNum (-(2 ^ 63))) :=
  c2_parse_num_overflow "99999999999999999999" ""
    (List.replicate 20 '9') (by decide) (by decide)

/-- C10 counterexample: the "print everything" directive is not
triggered only by the exact token "+0" — the distinct token "+00" also
parses to PlusZero. -/
theorem c10_plus_zero_cex :
    parse_num "+00" = .ok .PlusZero ∧ "+00" ≠ "+0" := by
  refine ⟨by decide, by decide⟩

/-- C10 amended: "-0" parses to Signed 0 (which resolves to none, i.e.
print nothing), not PlusZero; "-0" and "0" are equivalent at the
parsing interface; and among matching tokens the PlusZero directive is
triggered exactly by a "+" sign with digits of value zero (any number
of zero digits, e.g. "+0" or "+00"). -/
theorem c10_minus_zero :
    parse_num "-0" = .ok (.TakeNum 0) ∧
    parse_num "0" = .ok (.TakeNum 0) ∧
    parse_num "-0" = parse_num "0" ∧
    (∀ total : Int, get_start_index (.TakeNum 0) total = none) ∧
    (∀ (s sign : String) (ds : List Char),
      numCaptures s = some (sign, ds) →
      (parse_num s = .ok .PlusZero ↔ sign = "+" ∧ digitsToNat ds = 0)) := by
  refine ⟨by decide, by decide, by decide, ?_, ?_⟩
  · intro total
    simp [get_start_index]
  · intro s sign ds h
    constructor
    · intro hp
      by_cases hd : ds.all Char.isDigit = true
      · by_cases hr : signedVal sign ds < -(2 ^ 63) ∨
            2 ^ 63 - 1 < signedVal sign ds
        · rw [show parse_num s = .panicked "Invalid number" from by
            simp only [parse_num, h]
            rw [if_pos hd, if_pos hr]] at hp
          exact ParseOutcome.noConfusion hp
        · simp only [parse_num, h] at hp
          rw [if_pos hd, if_neg hr] at hp
          by_cases hplus : sign = "+"
          · subst hplus
            refine ⟨rfl, ?_⟩
            by_cases hz : signedVal "+" ds = 0
            · have hvv : signedVal "+" ds = (digitsToNat ds : Int) := by
                simp [signedVal]
              omega
            · rw [if_pos rfl, if_neg hz] at hp
              exact TakeValue.noConfusion (ParseOutcome.ok.inj hp)
          · by_cases hminus : sign = "-"
            · subst hminus
              rw [if_neg (show ¬ ("-" : String) = "+" from by decide),
                if_pos rfl] at hp
              exact TakeValue.noConfusion (ParseOutcome.ok.inj hp)
            · rw [if_neg hplus, if_neg hminus] at hp
              exact absurd (ParseOutcome.ok.inj hp) (by simp)
      · rw [show parse_num s = .panicked "Invalid number" from by
          simp only [parse_num, h]
          rw [if_neg hd]] at hp
        exact ParseOutcome.noConfusion hp
    · rintro ⟨rfl, hz⟩
      have hd : ds.all Char.isDigit = true := all_ascii_of_nd_zero s "+" ds h hz
      have hv : signedVal "+" ds = 0 := by
        simp [signedVal, hz]
      have hr : ¬ (signedVal "+" ds < -(2 ^ 63) ∨
          2 ^ 63 - 1 < signedVal "+" ds) := by
        rw [hv]
        omega
      simp only [parse_num, h]
      rw [if_pos hd, if_neg hr, if_pos trivial, if_pos hv]

/-- Witness for c10_minus_zero, applying the PlusZero characterization
at the token "+0". -/
theorem c10_minus_zero_witness :
    parse_num "+0" = .ok .PlusZero :=
  (c10_minus_zero.2.2.2.2 "+0" "+" ['0'] (by decide)).2 ⟨rfl, by decide⟩

lemma runFrom_abort (fs : String → Option FileData) (cause : String → String)
    (args : Args) (post : List String) (f : String) (hf : fs f = none) :
    ∀ pre : List String, (∀ g ∈ pre, (fs g).isSome) → ∀ i : Nat,
      (runFrom fs cause args (pre ++ f :: post) i).2
        = some (f ++ ": " ++ cause f) ∧
      (runFrom fs cause args (pre ++ f :: post) i).1
        = (runFrom fs cause args pre i).1 := by
  intro pre
  induction pre with
  | nil =>
    intro _ i
    simp [runFrom, hf]
  | cons g rest ih =>
    intro hpre i
    obtain ⟨d, hd⟩ := Option.isSome_iff_exists.mp (hpre g (by simp))
    have ihr := ih (fun x hx => hpre x (by simp [hx])) (i + 1)
    cases hb : args.bytes with
    | none =>
      simp only [List.cons_append, runFrom, hd, hb]
      exact ⟨ihr.1, by simp only [List.append_eq]; rw [ihr.2]⟩
    | some b =>
      obtain ⟨out, hout⟩ := print_bytes_total_ok d.bytes b
      have hout2 : print_bytes d.bytes b (count_lines_bytes d).2
          = .ok out := by
        simpa [count_lines_bytes] using hout
      simp only [List.cons_append, runFrom, hd, hb, hout2]
      exact ⟨ihr.1, by simp only [List.append_eq]; rw [ihr.2]⟩

/-- C1 counterexample: with the unopenable source "bad" listed before
the openable source "good", run emits nothing at all — the later source
is neither counted nor extracted — and returns the single error naming
"bad". -/
theorem c1_run_continue_cex :
    run fsOneGood causeNoEnt argsBadGood
      = ([], some "bad: No such file or directory (os error 2)") ∧
    fsOneGood "good" = some ⟨["a\n"], [97, 10]⟩ := by
  refine ⟨by decide, by decide⟩

/-- C1 amended: a source that cannot be opened is reported with an
error identifying that source (the message is the source name, a colon,
and the underlying cause), but the failure is fatal to the rest of the
run: output stops with the sources preceding it, and no later source is
counted or extracted. -/
theorem c1_run_open_failure (fs : String → Option FileData)
    (cause : String → String) (args : Args) (pre post : List String)
    (f : String) (hfiles : args.files = pre ++ f :: post)
    (hpre : ∀ g ∈ pre, (fs g).isSome) (hf : fs f = none) :
    (run fs cause args).2 = some (f ++ ": " ++ cause f) ∧
    (run fs cause args).1 = (runFrom fs cause args pre 0).1 := by
  rw [run, hfiles]
  exact runFrom_abort fs cause args post f hf pre hpre 0

/-- Witness for c1_run_open_failure at the concrete two-file run whose
first file is unopenable. -/
theorem c1_run_open_failure_witness :
    (run fsOneGood causeNoEnt argsBadGood).2
      = some ("bad" ++ ": " ++ causeNoEnt "bad") ∧
    (run fsOneGood causeNoEnt argsBadGood).1
      = (runFrom fsOneGood causeNoEnt argsBadGood [] 0).1 :=
  c1_run_open_failure fsOneGood causeNoEnt argsBadGood [] ["good"] "bad"
    (by decide) (by simp) (by decide)
